import Mathlib

/-!
Verification of the CKAN datastore postgres backend
(`ckanext/datastore/backend/postgres.py`) against its natural-language
specification.  Python functions are shallowly embedded as Lean
definitions; strings are modelled as `List Char` (or `String`) and the
database as explicit state passed through the functions.
-/

namespace Datastore

/-- The NUL character stripped by the escaping primitives. -/
def nulChar : Char := Char.ofNat 0

/-- Python `s.replace(a, b)` for a one-character pattern `a`:
each occurrence of `a` is replaced by the list `b`. -/
def pyReplaceChar (a : Char) (b : List Char) : List Char → List Char
  | [] => []
  | c :: rest => (if c = a then b else [c]) ++ pyReplaceChar a b rest

/-- `literal_string(s)`: `"'" + s.replace("'", "''").replace("\0", "") + "'"`. -/
def literal_string (s : List Char) : List Char :=
  '\'' :: (pyReplaceChar nulChar [] (pyReplaceChar '\'' ['\'', '\''] s) ++ ['\''])

/-- `identifier(s)`: `'"' + s.replace('"', '""').replace("\0", "") + '"'`. -/
def identifier (s : List Char) : List Char :=
  '"' :: (pyReplaceChar nulChar [] (pyReplaceChar '"' ['"', '"'] s) ++ ['"'])

/- Specification-side vocabulary for C1. -/

/-- Remove every NUL byte from a string. -/
def removeNul : List Char → List Char
  | [] => []
  | c :: rest => if c = nulChar then removeNul rest else c :: removeNul rest

/-- Double every occurrence of the quote character `q`. -/
def doubleQuote (q : Char) : List Char → List Char
  | [] => []
  | c :: rest => (if c = q then [q, q] else [c]) ++ doubleQuote q rest

/-- `true` iff every occurrence of `q` is immediately followed by a second
`q` that is consumed with it: no unescaped quote remains. -/
def wellEscaped (q : Char) : List Char → Bool
  | [] => true
  | [c] => c ≠ q
  | c :: c2 :: rest =>
    if c = q then c2 = q && wellEscaped q rest
    else wellEscaped q (c2 :: rest)

/-- Collapse each doubled occurrence of `q` back to a single `q`
(the decoding direction of the escaping). -/
def collapseDoubled (q : Char) : List Char → List Char
  | [] => []
  | [c] => [c]
  | c :: c2 :: rest =>
    if c = q then q :: collapseDoubled q rest
    else c :: collapseDoubled q (c2 :: rest)

/-- A string is NUL-free. -/
def nulFree (l : List Char) : Bool := l.all (fun c => c ≠ nulChar)

theorem pyReplaceChar_nul_eq_removeNul (l : List Char) :
    pyReplaceChar nulChar [] l = removeNul l := by
  induction l with
  | nil => rfl
  | cons c rest ih =>
    simp only [pyReplaceChar, removeNul, ih]
    split <;> simp

theorem pyReplaceChar_quote_eq_doubleQuote (q : Char) (l : List Char) :
    pyReplaceChar q [q, q] l = doubleQuote q l := by
  induction l with
  | nil => rfl
  | cons c rest ih => simp only [pyReplaceChar, doubleQuote, ih]

theorem removeNul_doubleQuote_comm (q : Char) (hq : q ≠ nulChar) (l : List Char) :
    removeNul (doubleQuote q l) = doubleQuote q (removeNul l) := by
  induction l with
  | nil => rfl
  | cons c rest ih =>
    by_cases hc : c = q
    · subst hc
      simp [doubleQuote, removeNul, hq, ih]
    · by_cases hn : c = nulChar
      · subst hn
        simp [doubleQuote, removeNul, hc, ih]
      · simp [doubleQuote, removeNul, hn, hc, ih]

theorem nulFree_removeNul (l : List Char) : nulFree (removeNul l) = true := by
  induction l with
  | nil => rfl
  | cons c rest ih =>
    simp only [removeNul]
    by_cases hc : c = nulChar
    · simpa [hc] using ih
    · simp only [if_neg hc, nulFree, List.all_cons, Bool.and_eq_true,
        decide_eq_true_eq]
      exact ⟨hc, by simpa [nulFree] using ih⟩

theorem mem_doubleQuote {q x : Char} {l : List Char}
    (h : x ∈ doubleQuote q l) : x = q ∨ x ∈ l := by
  induction l with
  | nil => simp [doubleQuote] at h
  | cons c rest ih =>
    simp only [doubleQuote] at h
    by_cases hc : c = q
    · subst hc
      simp only [if_pos rfl] at h
      rcases List.mem_append.1 h with h1 | h2
      · simp at h1
        exact Or.inl h1
      · rcases ih h2 with h3 | h3
        · exact Or.inl h3
        · exact Or.inr (List.mem_cons_of_mem _ h3)
    · simp only [if_neg hc, List.singleton_append] at h
      rcases List.mem_cons.1 h with h1 | h2
      · exact Or.inr (by simp [h1])
      · rcases ih h2 with h3 | h3
        · exact Or.inl h3
        · exact Or.inr (List.mem_cons_of_mem _ h3)

theorem nulFree_doubleQuote (q : Char) (hq : q ≠ nulChar) (l : List Char)
    (h : nulFree l = true) : nulFree (doubleQuote q l) = true := by
  simp only [nulFree, List.all_eq_true, decide_eq_true_eq] at h ⊢
  intro x hx
  rcases mem_doubleQuote hx with h1 | h1
  · simpa [h1] using hq
  · exact h x h1

theorem doubleQuote_eq_nil {q : Char} {l : List Char} :
    doubleQuote q l = [] ↔ l = [] := by
  cases l with
  | nil => simp [doubleQuote]
  | cons c rest =>
    simp only [doubleQuote]
    constructor
    · intro h
      exfalso
      by_cases hc : c = q <;> simp [hc] at h
    · intro h
      exact absurd h (List.cons_ne_nil _ _)

theorem wellEscaped_doubleQuote (q : Char) (l : List Char) :
    wellEscaped q (doubleQuote q l) = true := by
  induction l with
  | nil => rfl
  | cons c rest ih =>
    by_cases hc : c = q
    · subst hc
      have hdc : doubleQuote c (c :: rest) = c :: c :: doubleQuote c rest := by
        simp [doubleQuote]
      rw [hdc]
      simp [wellEscaped, ih]
    · simp only [doubleQuote, if_neg hc, List.cons_append, List.nil_append]
      cases hdq : doubleQuote q rest with
      | nil => simp [wellEscaped, hc]
      | cons d ds =>
        rw [hdq] at ih
        simp [wellEscaped, hc, ih]

theorem collapseDoubled_doubleQuote (q : Char) (l : List Char) :
    collapseDoubled q (doubleQuote q l) = l := by
  induction l with
  | nil => rfl
  | cons c rest ih =>
    by_cases hc : c = q
    · subst hc
      have hdc : doubleQuote c (c :: rest) = c :: c :: doubleQuote c rest := by
        simp [doubleQuote]
      rw [hdc]
      simp [collapseDoubled, ih]
    · simp only [doubleQuote, if_neg hc, List.cons_append, List.nil_append]
      cases hdq : doubleQuote q rest with
      | nil =>
        have h0 : rest = [] := doubleQuote_eq_nil.1 hdq
        subst h0
        simp [collapseDoubled]
      | cons d ds =>
        rw [hdq] at ih
        simp [collapseDoubled, hc, ih]

/-- C1: `identifier(s)` and `literal_string(s)` return `s` wrapped in the
quote character (double quote for `identifier`, single quote for
`literal_string`) with every embedded occurrence of that quote character
doubled and every NUL byte removed: there is a quote-wrapped body that is
NUL-free, contains no unescaped quote character, and whose doubled quotes
collapse back to `s` with its NUL bytes removed. -/
theorem c1_escaping_safe (s : List Char) :
    (∃ b, literal_string s = '\'' :: (b ++ ['\''])
      ∧ nulFree b = true
      ∧ wellEscaped '\'' b = true
      ∧ collapseDoubled '\'' b = removeNul s)
    ∧ (∃ b, identifier s = '"' :: (b ++ ['"'])
      ∧ nulFree b = true
      ∧ wellEscaped '"' b = true
      ∧ collapseDoubled '"' b = removeNul s) := by
  have hq1 : ('\'' : Char) ≠ nulChar := by decide
  have hq2 : ('"' : Char) ≠ nulChar := by decide
  constructor
  · refine ⟨doubleQuote '\'' (removeNul s), ?_, ?_, ?_, ?_⟩
    · unfold literal_string
      rw [pyReplaceChar_quote_eq_doubleQuote, pyReplaceChar_nul_eq_removeNul,
        removeNul_doubleQuote_comm _ hq1]
    · exact nulFree_doubleQuote _ hq1 _ (nulFree_removeNul s)
    · exact wellEscaped_doubleQuote _ _
    · exact collapseDoubled_doubleQuote _ _
  · refine ⟨doubleQuote '"' (removeNul s), ?_, ?_, ?_, ?_⟩
    · unfold identifier
      rw [pyReplaceChar_quote_eq_doubleQuote, pyReplaceChar_nul_eq_removeNul,
        removeNul_doubleQuote_comm _ hq2]
    · exact nulFree_doubleQuote _ hq2 _ (nulFree_removeNul s)
    · exact wellEscaped_doubleQuote _ _
    · exact collapseDoubled_doubleQuote _ _

/-! ## Type guessing (`_guess_type`, `_DATE_FORMATS`) -/

/-- Scalar Python values as they occur in datastore records and filters.
A float carries its `repr` string (its numeric value is never inspected
by the embedded code). -/
inductive PyScalar where
  | none
  | int (n : Int)
  | float (repr : String)
  | str (s : String)
deriving DecidableEq, Repr

/-- Datastore values: a scalar, a dict, a list, or the marshalled
composite `(json.dumps(value), \x27\x27)` that the write engine produces for
`nested`-typed columns.  List elements are modelled as scalars: the
embedded code paths never inspect the elements of a filter list beyond
binding them as values. -/
inductive PyVal where
  | scalar (v : PyScalar)
  | dict
  | list (xs : List PyScalar)
  | marshalled (json : String)
deriving DecidableEq, Repr

/-- Whitespace stripped by Python's `int()`/`float()` conversions. -/
def isPyWs (c : Char) : Bool :=
  c = ' ' || c = '\t' || c = '\n' || c = '\r' || c = Char.ofNat 11 || c = Char.ofNat 12

/-- Strip leading and trailing whitespace. -/
def stripWs (l : List Char) : List Char :=
  ((l.dropWhile isPyWs).reverse.dropWhile isPyWs).reverse

/-- Drop one optional leading `+`/`-` sign. -/
def afterSign (l : List Char) : List Char :=
  match l with
  | c :: rest => if c = '+' || c = '-' then rest else c :: rest
  | [] => []

/-- Success of Python `int(s)` on a string: optional whitespace and sign
followed by one or more decimal digits. -/
def pyIntParses (s : String) : Bool :=
  let l := afterSign (stripWs s.toList)
  !l.isEmpty && l.all (·.isDigit)

/-- Success of Python `float(s)` on a string: optional whitespace and sign,
then `inf`/`infinity`/`nan` or a decimal mantissa with optional fraction
and exponent. -/
def pyFloatParses (s : String) : Bool :=
  let l := afterSign (stripWs s.toList)
  let lower := l.map Char.toLower
  if lower = "inf".toList || lower = "infinity".toList || lower = "nan".toList then
    true
  else
    let intPart := l.takeWhile Char.isDigit
    let r1 := l.dropWhile Char.isDigit
    let hasDot := match r1 with | '.' :: _ => true | _ => false
    let fracPart := match r1 with | '.' :: rest => rest.takeWhile Char.isDigit | _ => []
    let r2 := match r1 with | '.' :: rest => rest.dropWhile Char.isDigit | _ => r1
    let mantOk := !intPart.isEmpty || (hasDot && !fracPart.isEmpty)
    let expOk :=
      match r2 with
      | [] => true
      | e :: rest =>
        (e = 'e' || e = 'E') &&
        (let rest2 := afterSign rest
         !rest2.isEmpty && rest2.all (·.isDigit))
    mantOk && expOk

/-- One component of a `strptime` format string: a literal character or
one of the directives used by `_DATE_FORMATS`. -/
inductive FmtTok where
  | lit (c : Char)
  | Y4
  | M2
  | D2
  | H2
  | Min2
  | S2
deriving DecidableEq, Repr

/-- `_DATE_FORMATS`: the 8 fixed date/time patterns, written as token
lists (`"%Y-%m-%d"` becomes `[Y4, lit -, M2, lit -, D2]`, and so on). -/
def _DATE_FORMATS : List (List FmtTok) :=
  [[.Y4, .lit '-', .M2, .lit '-', .D2],
   [.Y4, .lit '-', .M2, .lit '-', .D2, .lit ' ', .H2, .lit ':', .Min2, .lit ':', .S2],
   [.Y4, .lit '-', .M2, .lit '-', .D2, .lit 'T', .H2, .lit ':', .Min2, .lit ':', .S2],
   [.Y4, .lit '-', .M2, .lit '-', .D2, .lit 'T', .H2, .lit ':', .Min2, .lit ':', .S2,
    .lit 'Z'],
   [.D2, .lit '/', .M2, .lit '/', .Y4],
   [.M2, .lit '/', .D2, .lit '/', .Y4],
   [.D2, .lit '-', .M2, .lit '-', .Y4],
   [.M2, .lit '-', .D2, .lit '-', .Y4]]

/-- The date/time fields collected while matching a format
(with `strptime`'s defaults). -/
structure TParts where
  y : Nat := 1900
  m : Nat := 1
  d : Nat := 1
  hh : Nat := 0
  mm : Nat := 0
  ss : Nat := 0
deriving DecidableEq, Repr

/-- Read one or two leading digits (greedily), returning the value and the
remaining input. -/
def munch2 (l : List Char) : Option (Nat × List Char) :=
  match l with
  | c1 :: c2 :: rest =>
    if c1.isDigit then
      if c2.isDigit then some ((c1.toNat - 48) * 10 + (c2.toNat - 48), rest)
      else some (c1.toNat - 48, c2 :: rest)
    else Option.none
  | [c1] => if c1.isDigit then some (c1.toNat - 48, []) else Option.none
  | [] => Option.none

/-- Read exactly four leading digits. -/
def munch4 (l : List Char) : Option (Nat × List Char) :=
  match l with
  | a :: b :: c :: d :: rest =>
    if a.isDigit && b.isDigit && c.isDigit && d.isDigit then
      some (((a.toNat - 48) * 10 + (b.toNat - 48)) * 100
        + (c.toNat - 48) * 10 + (d.toNat - 48), rest)
    else Option.none
  | _ => Option.none

/-- Match a format token list against an input, enforcing the per-directive
ranges of CPython's `_strptime` regular expressions.  The whole input must
be consumed (`strptime` rejects unconverted trailing data). -/
def matchToks : List FmtTok → List Char → TParts → Option TParts
  | [], [], acc => some acc
  | [], _ :: _, _ => Option.none
  | .lit c :: ts, l, acc =>
    match l with
    | x :: rest => if x = c then matchToks ts rest acc else Option.none
    | [] => Option.none
  | .Y4 :: ts, l, acc =>
    match munch4 l with
    | some (v, rest) => matchToks ts rest { acc with y := v }
    | Option.none => Option.none
  | .M2 :: ts, l, acc =>
    match munch2 l with
    | some (v, rest) =>
      if 1 ≤ v && v ≤ 12 then matchToks ts rest { acc with m := v } else Option.none
    | Option.none => Option.none
  | .D2 :: ts, l, acc =>
    match munch2 l with
    | some (v, rest) =>
      if 1 ≤ v && v ≤ 31 then matchToks ts rest { acc with d := v } else Option.none
    | Option.none => Option.none
  | .H2 :: ts, l, acc =>
    match munch2 l with
    | some (v, rest) =>
      if v ≤ 23 then matchToks ts rest { acc with hh := v } else Option.none
    | Option.none => Option.none
  | .Min2 :: ts, l, acc =>
    match munch2 l with
    | some (v, rest) =>
      if v ≤ 59 then matchToks ts rest { acc with mm := v } else Option.none
    | Option.none => Option.none
  | .S2 :: ts, l, acc =>
    match munch2 l with
    | some (v, rest) =>
      if v ≤ 61 then matchToks ts rest { acc with ss := v } else Option.none
    | Option.none => Option.none

/-- Gregorian leap year, as used by `datetime`. -/
def isLeap (y : Nat) : Bool := y % 4 = 0 && (y % 100 ≠ 0 || y % 400 = 0)

/-- Days in a month, as validated by the `datetime` constructor. -/
def daysInMonth (y m : Nat) : Nat :=
  if m = 2 then (if isLeap y then 29 else 28)
  else if m = 4 || m = 6 || m = 9 || m = 11 then 30
  else 31

/-- Success of `datetime.datetime.strptime(s, fmt)`: the pattern matches
the whole input and the resulting fields form a valid `datetime`
(year ≥ 1, day within the month, seconds ≤ 59). -/
def strptimeOk (fmt : List FmtTok) (s : String) : Bool :=
  match matchToks fmt s.toList {} with
  | some p => 1 ≤ p.y && p.d ≤ daysInMonth p.y p.m && p.ss ≤ 59
  | Option.none => false

/-- Success of Python `int(v)` for a scalar (`TypeError` or
`ValueError` count as failure). -/
def pyIntCoerces : PyScalar → Bool
  | .int _ => true
  | .float _ => true
  | .str s => pyIntParses s
  | .none => false

/-- Success of Python `float(v)` for a scalar. -/
def pyFloatCoerces : PyScalar → Bool
  | .int _ => true
  | .float _ => true
  | .str s => pyFloatParses s
  | .none => false

/-- `strptime` applied to a non-string raises `TypeError`, which
`_guess_type` treats as a non-match. -/
def anyDateFormatMatches : PyScalar → Bool
  | .str s => _DATE_FORMATS.any (fun fmt => strptimeOk fmt s)
  | _ => false

/-- `_guess_type(field)`: dict/list are `nested`; `int`/`float` instances
keep their type; then `int()`/`float()` coercion is attempted (`integer`
preferred over `numeric`); then the 8 date formats; else `text`. -/
def _guess_type (field : PyVal) : String :=
  match field with
  | .dict => "nested"
  | .list _ => "nested"
  | .scalar (.int _) => "int"
  | .scalar (.float _) => "float"
  | .scalar f =>
    if pyIntCoerces f then "integer"
    else if pyFloatCoerces f then "numeric"
    else if anyDateFormatMatches f then "timestamp"
    else "text"
  | .marshalled _ => "text"

/-- The claim's description of `guess_type`, written from its wording:
structural types first, then native numbers, then numeric coercion, then
the 8 temporal patterns, text as fallback. -/
def guessTypeSpec (v : PyVal) : String :=
  match v with
  | .dict => "nested"
  | .list _ => "nested"
  | .scalar (.int _) => "int"
  | .scalar (.float _) => "float"
  | .scalar (.str s) =>
    if pyIntParses s then "integer"
    else if pyFloatParses s then "numeric"
    else if _DATE_FORMATS.any (fun fmt => strptimeOk fmt s) then "timestamp"
    else "text"
  | .scalar .none => "text"
  | .marshalled _ => "text"

/-- C2: `_guess_type` is a pure function of its argument and the fixed
8-format date list, deciding in the claimed order (nested, int, float,
integer-coercion, numeric-coercion, timestamp, text), and on the sample
inputs: `5` gives `int`, `5.0` gives `float`, `"5"` gives `integer`,
`"2020-01-01"` gives `timestamp`, `"abc"` gives `text`. -/
theorem c2_guess_type (v : PyVal) :
    _guess_type v = guessTypeSpec v
    ∧ _guess_type (.scalar (.int 5)) = "int"
    ∧ _guess_type (.scalar (.float "5.0")) = "float"
    ∧ _guess_type (.scalar (.str "5")) = "integer"
    ∧ _guess_type (.scalar (.str "2020-01-01")) = "timestamp"
    ∧ _guess_type (.scalar (.str "abc")) = "text" := by
  refine ⟨?_, by decide, by decide, by decide, by decide, by decide⟩
  cases v with
  | scalar f => cases f <;> rfl
  | dict => rfl
  | list xs => rfl
  | marshalled s => rfl

/-! ## Where-clause compilation (`_where_clauses`, `_is_array_type`) -/

/-- `identifier` on `String`. -/
def identifierS (s : String) : String := String.mk (identifier s.toList)

/-- `literal_string` on `String`. -/
def literal_stringS (s : String) : String := String.mk (literal_string s.toList)

/-- `_is_array_type(field_type)`: array types carry a leading underscore. -/
def _is_array_type (field_type : String) : Bool := field_type.startsWith "_"

/-- Ascii digit for `d < 10`. -/
def digitChar (d : Nat) : Char := Char.ofNat (48 + d)

/-- Decimal digits of a natural number, most significant first
(Python's rendering of a non-negative `int`). -/
def decDigits (n : Nat) : List Char :=
  if _h : n < 10 then [digitChar n]
  else decDigits (n / 10) ++ [digitChar (n % 10)]
decreasing_by exact Nat.div_lt_self (by omega) (by omega)

/-- Python `str` of an `int`. -/
def pyIntStr (i : Int) : String :=
  if i < 0 then String.mk ('-' :: decDigits i.natAbs) else String.mk (decDigits i.natAbs)

/-- Python `str` of a scalar value (`str(float)` is its carried repr). -/
def pyStrScalar : PyScalar → String
  | .str s => s
  | .int n => pyIntStr n
  | .float r => r
  | .none => "None"

/-- Python `str` of a datastore value.  The dict/list payloads are not
carried by the model, so their reprs are opaque markers; no claim
depends on them. -/
def pyStr : PyVal → String
  | .scalar v => pyStrScalar v
  | .dict => "dict"
  | .list _ => "list"
  | .marshalled s => s

/-- The placeholder `f"value_{next(idx_gen)}"` for counter value `n`. -/
def placeholderName (n : Nat) : String := String.mk ("value_".toList ++ decDigits n)

/-- Look up a field's type in the `fields_types` mapping. -/
def lookupType (ft : List (String × String)) (f : String) : Option String :=
  (ft.find? (fun p => p.1 == f)).map (·.2)

/-- A compiled WHERE fragment: SQL text with bound parameters, or SQL
text alone (the `(clause_str,)` one-tuples of the source). -/
inductive WhereClause where
  | withParams (sql : String) (params : List (String × PyVal))
  | bare (sql : String)
deriving DecidableEq, Repr

/-- The filter loop of `_where_clauses`: skips unknown fields, emits an
`IN` clause for list values on non-array columns and an equality clause
otherwise, coerces values to strings on `text` columns, and threads the
shared placeholder counter `idx_gen`. -/
def filterClauses (ft : List (String × String)) :
    List (String × PyVal) → Nat → List WhereClause × Nat
  | [], n => ([], n)
  | (field, value) :: rest, n =>
    match lookupType ft field with
    | Option.none => filterClauses ft rest n
    | some ftype =>
      match value with
      | .list xs =>
        if _is_array_type ftype then
          let value1 := if ftype == "text" then PyVal.scalar (.str (pyStr (.list xs)))
            else PyVal.list xs
          let p := placeholderName n
          let r := filterClauses ft rest (n + 1)
          (WhereClause.withParams (field ++ " = :" ++ p) [(p, value1)] :: r.1, r.2)
        else
          let placeholders := (List.range xs.length).map (fun i => placeholderName (n + i))
          let clause_str := field ++ " in ("
            ++ String.intercalate "," (placeholders.map (fun p => ":" ++ p)) ++ ")"
          let vals := if ftype == "text" then xs.map (fun v => PyScalar.str (pyStrScalar v))
            else xs
          let r := filterClauses ft rest (n + xs.length)
          (WhereClause.withParams clause_str (placeholders.zip (vals.map PyVal.scalar)) :: r.1,
            r.2)
      | v =>
        let value1 := if ftype == "text" then PyVal.scalar (.str (pyStr v)) else v
        let p := placeholderName n
        let r := filterClauses ft rest (n + 1)
        (WhereClause.withParams (field ++ " = :" ++ p) [(p, value1)] :: r.1, r.2)

/-- `_ts_query_alias(field)`. -/
def _ts_query_alias (field : Option String) : String :=
  identifierS (match field with
    | some f => if f = "" then "query" else "query " ++ f
    | Option.none => "query")

/-- `_fts_lang(lang)`: the language or the configured default
(`lang or config default`, so an empty string also falls back). -/
def _fts_lang (defaultLang : String) (lang : Option String) : String :=
  match lang with
  | some l => if l = "" then defaultLang else l
  | Option.none => defaultLang

/-- Modelled from the spec: `datastore_helpers.should_fts_index_field_type`,
an external collaborator absent from the source tree; the spec calls for a
predicate picking out full-text-indexable column types. -/
def should_fts_index_field_type (t : String) : Bool :=
  t == "text" || t == "tsvector"

/-- The per-field part of the `q`-as-dict branch of `_where_clauses`:
unknown fields are skipped; non-indexable column types get an extra
`_full_text` clause; every kept field gets an on-the-fly `to_tsvector`
clause. -/
def qDictClauses (ft : List (String × String)) (lang : String) :
    List (String × String) → List WhereClause
  | [] => []
  | (field, _value) :: rest =>
    match lookupType ft field with
    | Option.none => qDictClauses ft lang rest
    | some ftyp =>
      let query_field := _ts_query_alias (some field)
      (if !should_fts_index_field_type ftyp then
        [WhereClause.bare ("_full_text @@ " ++ query_field)]
      else [])
      ++ [WhereClause.bare ("to_tsvector(" ++ literal_stringS lang ++ ", cast("
          ++ identifierS field ++ " as text)) @@ " ++ query_field)]
      ++ qDictClauses ft lang rest

/-- The `q` and `full_text` parts of `_where_clauses` (Python truthiness:
an empty string or dict contributes nothing). -/
def qClauses (defaultLang : String) (ft : List (String × String))
    (q : Option (Sum String (List (String × String)))) (language : Option String) :
    List WhereClause :=
  match q with
  | Option.none => []
  | some (Sum.inl s) =>
    if s = "" then []
    else [WhereClause.bare ("_full_text @@ " ++ _ts_query_alias Option.none)]
  | some (Sum.inr pairs) =>
    if pairs.isEmpty then []
    else qDictClauses ft (_fts_lang defaultLang language) pairs

/-- The `full_text` clause of `_where_clauses`. -/
def fullTextClauses (full_text : Option String) : List WhereClause :=
  match full_text with
  | some s =>
    if s = "" then []
    else [WhereClause.bare ("_full_text @@ " ++ _ts_query_alias Option.none)]
  | Option.none => []

/-- The relevant slice of the search data dict. -/
structure SearchData where
  filters : List (String × PyVal) := []
  q : Option (Sum String (List (String × String))) := Option.none
  full_text : Option String := Option.none
  language : Option String := Option.none
deriving DecidableEq, Repr

/-- `_where_clauses(data_dict, fields_types)`: filter clauses (with the
placeholder counter starting at zero), then `q` clauses, then the
`full_text` clause. -/
def _where_clauses (defaultLang : String) (data : SearchData)
    (ft : List (String × String)) : List WhereClause :=
  (filterClauses ft data.filters 0).1
    ++ qClauses defaultLang ft data.q data.language
    ++ fullTextClauses data.full_text

/-! ## C3/C9 support: placeholder freshness and clause shapes -/

/-- Parameter names bound by one clause. -/
def clauseParamNames : WhereClause → List String
  | .withParams _ ps => ps.map (·.1)
  | .bare _ => []

/-- All parameter names bound by a clause list. -/
def allParamNames (cs : List WhereClause) : List String :=
  cs.flatMap clauseParamNames

/-- A clause that binds parameters. -/
def isParamClause : WhereClause → Bool
  | .withParams _ _ => true
  | .bare _ => false

theorem digitChar_toNat {d : Nat} (h : d < 10) : (digitChar d).toNat = 48 + d := by
  interval_cases d <;> rfl

/-- Decimal value of a digit string (decoding direction for injectivity). -/
def val10 (l : List Char) : Nat := l.foldl (fun a c => a * 10 + (c.toNat - 48)) 0

theorem val10_decDigits (n : Nat) : val10 (decDigits n) = n := by
  induction n using Nat.strong_induction_on with
  | _ n ih =>
    rw [decDigits]
    split
    · next h =>
      simp only [val10, List.foldl_cons, List.foldl_nil]
      rw [digitChar_toNat h]
      omega
    · next h =>
      have h1 : n / 10 < n := Nat.div_lt_self (by omega) (by omega)
      have h2 : n % 10 < 10 := Nat.mod_lt _ (by omega)
      have ihv := ih (n / 10) h1
      simp only [val10] at ihv ⊢
      rw [List.foldl_append, ihv]
      simp only [List.foldl_cons, List.foldl_nil]
      rw [digitChar_toNat h2]
      omega

theorem placeholderName_inj {a b : Nat} (h : placeholderName a = placeholderName b) :
    a = b := by
  simp only [placeholderName] at h
  injection h with h2
  have h2 := List.append_cancel_left h2
  have ha := val10_decDigits a
  rw [h2, val10_decDigits b] at ha
  omega

/-- Invariant carried by the placeholder counter: every name bound by
`cs` is a `value_i` with `n ≤ i < m`, and the names are distinct. -/
def NamesInv (n : Nat) (cs : List WhereClause) (m : Nat) : Prop :=
  n ≤ m ∧ (allParamNames cs).Nodup ∧
    ∀ s ∈ allParamNames cs, ∃ i, n ≤ i ∧ i < m ∧ s = placeholderName i

theorem namesInv_step_one {n m : Nat} {cs : List WhereClause} (sql : String) (v : PyVal)
    (h : NamesInv (n + 1) cs m) :
    NamesInv n (WhereClause.withParams sql [(placeholderName n, v)] :: cs) m := by
  obtain ⟨hle, hnd, hmem⟩ := h
  refine ⟨by omega, ?_, ?_⟩
  · simp only [allParamNames, List.flatMap_cons, clauseParamNames, List.map_cons,
      List.map_nil, List.singleton_append, List.nodup_cons]
    refine ⟨fun hin => ?_, hnd⟩
    obtain ⟨i, hi1, _, hi3⟩ := hmem _ hin
    have := placeholderName_inj hi3
    omega
  · intro s hs
    simp only [allParamNames, List.flatMap_cons, clauseParamNames, List.map_cons,
      List.map_nil, List.singleton_append, List.mem_cons] at hs
    rcases hs with hs | hs
    · exact ⟨n, le_refl n, by omega, hs⟩
    · obtain ⟨i, hi1, hi2, hi3⟩ := hmem _ hs
      exact ⟨i, by omega, hi2, hi3⟩

theorem namesInv_step_many {n m len : Nat} {cs : List WhereClause} (sql : String)
    (vals : List PyVal) (hlen : vals.length = len)
    (h : NamesInv (n + len) cs m) :
    NamesInv n
      (WhereClause.withParams sql
        (((List.range len).map (fun i => placeholderName (n + i))).zip vals) :: cs) m := by
  obtain ⟨hle, hnd, hmem⟩ := h
  have hinj : Function.Injective (fun i => placeholderName (n + i)) := by
    intro a b hab
    have := placeholderName_inj hab
    omega
  have hps : (((List.range len).map (fun i => placeholderName (n + i))).zip vals).map
      Prod.fst = (List.range len).map (fun i => placeholderName (n + i)) := by
    apply List.map_fst_zip
    simp [hlen]
  have hnames : allParamNames
      (WhereClause.withParams sql
        (((List.range len).map (fun i => placeholderName (n + i))).zip vals) :: cs)
      = (List.range len).map (fun i => placeholderName (n + i)) ++ allParamNames cs := by
    simp only [allParamNames, List.flatMap_cons, clauseParamNames]
    rw [hps]
  refine ⟨by omega, ?_, ?_⟩
  · rw [hnames, List.nodup_append]
    refine ⟨List.Nodup.map hinj (List.nodup_range len), hnd, ?_⟩
    intro s hin1 hin2
    simp only [List.mem_map, List.mem_range] at hin1
    obtain ⟨i, hi, rfl⟩ := hin1
    obtain ⟨j, hj1, _, hj3⟩ := hmem _ hin2
    have := placeholderName_inj hj3
    omega
  · intro s hs
    rw [hnames] at hs
    rcases List.mem_append.1 hs with hs | hs
    · simp only [List.mem_map, List.mem_range] at hs
      obtain ⟨i, hi, rfl⟩ := hs
      exact ⟨n + i, by omega, by omega, rfl⟩
    · obtain ⟨j, hj1, hj2, hj3⟩ := hmem _ hs
      exact ⟨j, by omega, hj2, hj3⟩

theorem filterClauses_names (ft : List (String × String)) :
    ∀ (filters : List (String × PyVal)) (n : Nat),
      NamesInv n (filterClauses ft filters n).1 (filterClauses ft filters n).2 := by
  intro filters
  induction filters with
  | nil =>
    intro n
    exact ⟨le_refl n, by simp [filterClauses, allParamNames], by
      simp [filterClauses, allParamNames]⟩
  | cons hd rest ih =>
    intro n
    obtain ⟨field, value⟩ := hd
    cases hl : lookupType ft field with
    | none => simpa [filterClauses, hl] using ih n
    | some ftype =>
      cases value with
      | scalar v =>
        simp only [filterClauses, hl]
        exact namesInv_step_one _ _ (ih (n + 1))
      | dict =>
        simp only [filterClauses, hl]
        exact namesInv_step_one _ _ (ih (n + 1))
      | marshalled s =>
        simp only [filterClauses, hl]
        exact namesInv_step_one _ _ (ih (n + 1))
      | list xs =>
        by_cases ha : _is_array_type ftype
        · simp only [filterClauses, hl, ha, if_pos]
          exact namesInv_step_one _ _ (ih (n + 1))
        · simp only [filterClauses, hl, ha, if_neg, Bool.false_eq_true]
          apply namesInv_step_many
          · split <;> simp
          · exact ih (n + xs.length)

/-- The claim's equality clause: `field = value` with one bound value. -/
def specEqClause (field name : String) (v : PyVal) : WhereClause :=
  .withParams (field ++ " = :" ++ name) [(name, v)]

/-- The claim's membership clause: `field in (...)` binding each
element of the list. -/
def specINClause (field : String) (names : List String) (vs : List PyScalar) : WhereClause :=
  .withParams
    (field ++ " in (" ++ String.intercalate "," (names.map (fun p => ":" ++ p)) ++ ")")
    (names.zip (vs.map PyVal.scalar))

/-- The per-pair property claimed of `_where_clauses`: the pair's field is
known; a list value on a non-array column becomes an `IN` clause binding
every element under distinct placeholder names, anything else becomes an
equality clause under one placeholder; `text` columns compare the
stringified value(s). -/
def clauseMatches (ft : List (String × String)) (p : String × PyVal) (c : WhereClause) :
    Prop :=
  ∃ ftype, lookupType ft p.1 = some ftype ∧
    match p.2 with
    | .list xs =>
      if _is_array_type ftype then
        ∃ name, c = specEqClause p.1 name
          (if ftype == "text" then PyVal.scalar (.str (pyStr (.list xs))) else .list xs)
      else
        ∃ names, names.length = xs.length ∧ names.Nodup ∧
          c = specINClause p.1 names
            (if ftype == "text" then xs.map (fun v => PyScalar.str (pyStrScalar v)) else xs)
    | v =>
      ∃ name, c = specEqClause p.1 name
        (if ftype == "text" then PyVal.scalar (.str (pyStr v)) else v)

theorem filterClauses_shape (ft : List (String × String)) :
    ∀ (filters : List (String × PyVal)) (n : Nat),
      List.Forall₂ (clauseMatches ft)
        (filters.filter (fun p => (lookupType ft p.1).isSome))
        (filterClauses ft filters n).1 := by
  intro filters
  induction filters with
  | nil => intro n; simp [filterClauses]
  | cons hd rest ih =>
    intro n
    obtain ⟨field, value⟩ := hd
    cases hl : lookupType ft field with
    | none => simpa [filterClauses, hl, List.filter_cons] using ih n
    | some ftype =>
      simp only [List.filter_cons, hl, Option.isSome_some, if_pos]
      cases value with
      | scalar v =>
        simp only [filterClauses, hl]
        exact List.Forall₂.cons ⟨ftype, hl, ⟨placeholderName n, rfl⟩⟩ (ih (n + 1))
      | dict =>
        simp only [filterClauses, hl]
        exact List.Forall₂.cons ⟨ftype, hl, ⟨placeholderName n, rfl⟩⟩ (ih (n + 1))
      | marshalled s =>
        simp only [filterClauses, hl]
        exact List.Forall₂.cons ⟨ftype, hl, ⟨placeholderName n, rfl⟩⟩ (ih (n + 1))
      | list xs =>
        by_cases ha : _is_array_type ftype
        · simp only [filterClauses, hl, ha, if_pos]
          refine List.Forall₂.cons ⟨ftype, hl, ?_⟩ (ih (n + 1))
          simp only [ha, if_pos]
          exact ⟨placeholderName n, rfl⟩
        · simp only [filterClauses, hl, ha, Bool.false_eq_true, if_neg]
          refine List.Forall₂.cons ⟨ftype, hl, ?_⟩ (ih (n + xs.length))
          simp only [ha, Bool.false_eq_true, if_neg]
          refine ⟨(List.range xs.length).map (fun i => placeholderName (n + i)), ?_, ?_, rfl⟩
          · simp
          · refine List.Nodup.map ?_ (List.nodup_range xs.length)
            intro a b hab
            have := placeholderName_inj hab
            omega

theorem qDictClauses_all_bare (ft : List (String × String)) (lang : String) :
    ∀ pairs, ∀ c ∈ qDictClauses ft lang pairs, isParamClause c = false := by
  intro pairs
  induction pairs with
  | nil => intro c hc; simp [qDictClauses] at hc
  | cons hd rest ih =>
    intro c hc
    obtain ⟨field, value⟩ := hd
    cases hl : lookupType ft field with
    | none =>
      rw [qDictClauses, hl] at hc
      exact ih c hc
    | some ftyp =>
      rw [qDictClauses, hl] at hc
      simp only [List.mem_append] at hc
      rcases hc with (hc | hc) | hc
      · split at hc
        · simp only [List.mem_cons, List.not_mem_nil, or_false] at hc
          rw [hc]; rfl
        · simp at hc
      · simp only [List.mem_cons, List.not_mem_nil, or_false] at hc
        rw [hc]; rfl
      · exact ih c hc

theorem qClauses_all_bare (defaultLang : String) (ft : List (String × String))
    (q : Option (Sum String (List (String × String)))) (language : Option String) :
    ∀ c ∈ qClauses defaultLang ft q language, isParamClause c = false := by
  intro c hc
  match q with
  | Option.none => simp [qClauses] at hc
  | some (Sum.inl s) =>
    rw [qClauses] at hc
    split at hc
    · simp at hc
    · simp only [List.mem_cons, List.not_mem_nil, or_false] at hc
      rw [hc]; rfl
  | some (Sum.inr pairs) =>
    rw [qClauses] at hc
    split at hc
    · simp at hc
    · exact qDictClauses_all_bare ft _ pairs c hc

theorem fullTextClauses_all_bare (full_text : Option String) :
    ∀ c ∈ fullTextClauses full_text, isParamClause c = false := by
  intro c hc
  match full_text with
  | Option.none => simp [fullTextClauses] at hc
  | some s =>
    rw [fullTextClauses] at hc
    split at hc
    · simp at hc
    · simp only [List.mem_cons, List.not_mem_nil, or_false] at hc
      rw [hc]; rfl

theorem filterClauses_all_param (ft : List (String × String)) :
    ∀ filters n, ∀ c ∈ (filterClauses ft filters n).1, isParamClause c = true := by
  intro filters
  induction filters with
  | nil => intro n c hc; simp [filterClauses] at hc
  | cons hd rest ih =>
    intro n c hc
    obtain ⟨field, value⟩ := hd
    cases hl : lookupType ft field with
    | none =>
      rw [filterClauses, hl] at hc
      exact ih n c hc
    | some ftype =>
      cases value with
      | scalar v =>
        rw [filterClauses, hl] at hc
        rcases List.mem_cons.1 hc with hc | hc
        · rw [hc]; rfl
        · exact ih (n + 1) c hc
      | dict =>
        rw [filterClauses, hl] at hc
        rcases List.mem_cons.1 hc with hc | hc
        · rw [hc]; rfl
        · exact ih (n + 1) c hc
      | marshalled s =>
        rw [filterClauses, hl] at hc
        rcases List.mem_cons.1 hc with hc | hc
        · rw [hc]; rfl
        · exact ih (n + 1) c hc
      | list xs =>
        by_cases ha : _is_array_type ftype
        · simp only [filterClauses, hl, ha, if_pos] at hc
          rcases List.mem_cons.1 hc with hc | hc
          · rw [hc]; rfl
          · exact ih (n + 1) c hc
        · simp only [filterClauses, hl, ha, Bool.false_eq_true, if_neg] at hc
          rcases List.mem_cons.1 hc with hc | hc
          · rw [hc]; rfl
          · exact ih (n + xs.length) c hc

theorem allParamNames_of_bare {cs : List WhereClause}
    (h : ∀ c ∈ cs, isParamClause c = false) : allParamNames cs = [] := by
  induction cs with
  | nil => rfl
  | cons c rest ih =>
    have hc := h c (List.mem_cons_self c rest)
    have hrest := ih (fun d hd => h d (List.mem_cons_of_mem c hd))
    cases c with
    | withParams s ps => simp [isParamClause] at hc
    | bare s =>
      have heq : allParamNames (WhereClause.bare s :: rest)
          = clauseParamNames (WhereClause.bare s) ++ allParamNames rest := by
        simp [allParamNames, List.flatMap_cons]
      rw [heq, hrest]
      rfl

theorem filter_param_of_bare {cs : List WhereClause}
    (h : ∀ c ∈ cs, isParamClause c = false) : cs.filter isParamClause = [] := by
  rw [List.filter_eq_nil_iff]
  intro c hc
  simp [h c hc]

/-- C3: every known-field filter pair yields exactly one clause, in order
(`IN` for list values on non-array columns, `=` otherwise, stringified on
`text` columns), and the placeholder names bound across one
`_where_clauses` call are pairwise distinct. -/
theorem c3_where_clauses (defaultLang : String) (data : SearchData)
    (ft : List (String × String)) :
    List.Forall₂ (clauseMatches ft)
      (data.filters.filter (fun p => (lookupType ft p.1).isSome))
      ((_where_clauses defaultLang data ft).filter isParamClause)
    ∧ (allParamNames (_where_clauses defaultLang data ft)).Nodup := by
  have hqb := qClauses_all_bare defaultLang ft data.q data.language
  have hfb := fullTextClauses_all_bare data.full_text
  constructor
  · rw [_where_clauses, List.filter_append, List.filter_append,
      filter_param_of_bare hqb, filter_param_of_bare hfb,
      List.filter_eq_self.2 (filterClauses_all_param ft data.filters 0),
      List.append_nil, List.append_nil]
    exact filterClauses_shape ft data.filters 0
  · rw [_where_clauses]
    simp only [allParamNames, List.flatMap_append]
    rw [show (qClauses defaultLang ft data.q data.language).flatMap clauseParamNames
        = allParamNames (qClauses defaultLang ft data.q data.language) from rfl,
      show (fullTextClauses data.full_text).flatMap clauseParamNames
        = allParamNames (fullTextClauses data.full_text) from rfl,
      allParamNames_of_bare hqb, allParamNames_of_bare hfb,
      List.append_nil, List.append_nil]
    exact (filterClauses_names ft data.filters 0).2.1

/-! ## C9: unknown fields are silently skipped -/

/-- The search data with filters and per-field `q` entries restricted to
the resource's known fields (the claim's description of what
`_where_clauses` effectively consumes). -/
def restrictToKnown (ft : List (String × String)) (data : SearchData) : SearchData :=
  { data with
    filters := data.filters.filter (fun p => (lookupType ft p.1).isSome),
    q := match data.q with
      | some (Sum.inr pairs) =>
        some (Sum.inr (pairs.filter (fun p => (lookupType ft p.1).isSome)))
      | other => other }

theorem filterClauses_skip_unknown (ft : List (String × String)) :
    ∀ (filters : List (String × PyVal)) (n : Nat),
      filterClauses ft (filters.filter (fun p => (lookupType ft p.1).isSome)) n
        = filterClauses ft filters n := by
  intro filters
  induction filters with
  | nil => intro n; rfl
  | cons hd rest ih =>
    intro n
    obtain ⟨field, value⟩ := hd
    cases hl : lookupType ft field with
    | none =>
      simp only [List.filter_cons, hl, Option.isSome_none]
      rw [if_neg Bool.false_ne_true, ih n]
      simp only [filterClauses, hl]
    | some ftype =>
      simp only [List.filter_cons, hl, Option.isSome_some, if_pos]
      cases value with
      | scalar v => simp only [filterClauses, hl, ih]
      | dict => simp only [filterClauses, hl, ih]
      | marshalled s => simp only [filterClauses, hl, ih]
      | list xs =>
        by_cases ha : _is_array_type ftype
        · simp only [filterClauses, hl, ha, if_pos, ih]
        · simp only [filterClauses, hl, ha, Bool.false_eq_true, if_neg, ih]

theorem qDictClauses_skip_unknown (ft : List (String × String)) (lang : String) :
    ∀ pairs : List (String × String),
      qDictClauses ft lang (pairs.filter (fun p => (lookupType ft p.1).isSome))
        = qDictClauses ft lang pairs := by
  intro pairs
  induction pairs with
  | nil => rfl
  | cons hd rest ih =>
    obtain ⟨field, value⟩ := hd
    cases hl : lookupType ft field with
    | none =>
      simp only [List.filter_cons, hl, Option.isSome_none]
      rw [if_neg Bool.false_ne_true, ih]
      simp only [qDictClauses, hl]
    | some ftyp =>
      simp only [List.filter_cons, hl, Option.isSome_some, if_pos]
      simp only [qDictClauses, hl, ih]

theorem qDictClauses_nil_of_all_unknown (ft : List (String × String)) (lang : String)
    (pairs : List (String × String))
    (h : pairs.filter (fun p => (lookupType ft p.1).isSome) = []) :
    qDictClauses ft lang pairs = [] := by
  rw [← qDictClauses_skip_unknown ft lang pairs, h]
  rfl

/-- C9: filter pairs and per-field `q` entries naming unknown fields are
silently skipped — the compiled clause list equals the one for the data
restricted to known fields, so such entries never narrow the result (and
the compiler is a total function: no error is raised). -/
theorem c9_unknown_fields_skipped (defaultLang : String) (data : SearchData)
    (ft : List (String × String)) :
    _where_clauses defaultLang (restrictToKnown ft data) ft
      = _where_clauses defaultLang data ft := by
  rw [_where_clauses, _where_clauses]
  have h1 : (restrictToKnown ft data).filters
      = data.filters.filter (fun p => (lookupType ft p.1).isSome) := rfl
  have h2 : (restrictToKnown ft data).full_text = data.full_text := rfl
  have h3 : (restrictToKnown ft data).language = data.language := rfl
  rw [h1, h2, h3, filterClauses_skip_unknown]
  congr 1
  congr 1
  match hq : data.q with
  | Option.none =>
    have : (restrictToKnown ft data).q = Option.none := by
      simp [restrictToKnown, hq]
    rw [this]
  | some (Sum.inl s) =>
    have : (restrictToKnown ft data).q = some (Sum.inl s) := by
      simp [restrictToKnown, hq]
    rw [this]
  | some (Sum.inr pairs) =>
    have hrq : (restrictToKnown ft data).q
        = some (Sum.inr (pairs.filter (fun p => (lookupType ft p.1).isSome))) := by
      simp [restrictToKnown, hq]
    rw [hrq]
    simp only [qClauses]
    by_cases hpf : (pairs.filter (fun p => (lookupType ft p.1).isSome)).isEmpty
    · rw [if_pos hpf]
      have hnil : pairs.filter (fun p => (lookupType ft p.1).isSome) = [] :=
        List.isEmpty_iff.1 hpf
      by_cases hp : pairs.isEmpty
      · rw [if_pos hp]
      · rw [if_neg hp, qDictClauses_nil_of_all_unknown ft _ pairs hnil]
    · rw [if_neg hpf, qDictClauses_skip_unknown]
      have hp : ¬ pairs.isEmpty = true := by
        intro hcon
        apply hpf
        have hn : pairs = [] := List.isEmpty_iff.1 hcon
        subst hn
        rfl
      rw [if_neg hp]

/-! ## C7: totals and the estimation gate (`search_data`) -/

/-- The `include_total` tail of `search_data`: returns
`some (total, total_was_estimated)` or `none` when no total is requested.
`threshold` is `total_estimation_threshold`, `hasWhereClause`/`distinct`
say whether a filter clause or DISTINCT is active, `plannerEstimate` is
the approximate row count from `pg_class.reltuples` (`none` when the
statistics are unavailable), `exactCount` is `COUNT(*)` over the filtered
query. -/
def computeTotal (includeTotal : Bool) (threshold : Option Int)
    (hasWhereClause distinct : Bool) (plannerEstimate : Option Int)
    (exactCount : Int) : Option (Int × Bool) :=
  if includeTotal then
    let estimated_total : Option Int :=
      match threshold with
      | some _ => if !(hasWhereClause || distinct) then plannerEstimate else Option.none
      | Option.none => Option.none
    match estimated_total, threshold with
    | some est, some th =>
      if est ≥ th then some (est, true) else some (exactCount, false)
    | _, _ => some (exactCount, false)
  else Option.none

/-- The claim's description of the total: exact `COUNT(*)` by default;
the planner estimate is used only when a threshold is supplied, no filter
clause and no DISTINCT are active, the estimate is available, and it
meets the threshold — and only then is the result flagged as
estimated. -/
def computeTotalSpec (includeTotal : Bool) (threshold : Option Int)
    (hasWhereClause distinct : Bool) (plannerEstimate : Option Int)
    (exactCount : Int) : Option (Int × Bool) :=
  if includeTotal then
    match threshold, plannerEstimate with
    | some th, some est =>
      if !hasWhereClause && !distinct && decide (est ≥ th) then some (est, true)
      else some (exactCount, false)
    | _, _ => some (exactCount, false)
  else Option.none

/-- C7: the total is the exact count with `total_was_estimated = false`
in every case except when a threshold is supplied, no filter clause and
no DISTINCT are active, and the available planner estimate meets the
threshold; in particular with threshold 1000 and estimate 10 the result
is the exact count, not estimated. -/
theorem c7_total_estimation (includeTotal : Bool) (threshold : Option Int)
    (hasWhereClause distinct : Bool) (plannerEstimate : Option Int)
    (exactCount : Int) :
    computeTotal includeTotal threshold hasWhereClause distinct plannerEstimate
        exactCount
      = computeTotalSpec includeTotal threshold hasWhereClause distinct
          plannerEstimate exactCount
    ∧ computeTotal true (some 1000) false false (some 10) 42 = some (42, false) := by
  refine ⟨?_, by decide⟩
  cases includeTotal with
  | false => rfl
  | true =>
    cases threshold with
    | none => cases plannerEstimate <;> rfl
    | some th =>
      cases plannerEstimate with
      | none =>
        cases hasWhereClause <;> cases distinct <;> rfl
      | some est =>
        cases hasWhereClause <;> cases distinct <;>
          simp [computeTotal, computeTotalSpec]

/-! ## C8: `search_sql` row cap and truncation flag -/

/-- `search_sql` + `format_results`, over the rows produced by the
caller's SQL: the query is wrapped in
`SELECT * FROM (...) AS blah LIMIT rows_max + 1`, so at most
`rows_max + 1` rows are fetched; `records_truncated` is set iff exactly
`rows_max + 1` came back, in which case `format_results` pops the
surplus row after converting.  `convert` is the per-value type
conversion applied to each row. -/
def search_sql (rows_max : Nat) (convert : α → β) (rows : List α) :
    List β × Bool :=
  let fetched := rows.take (rows_max + 1)
  let truncated := fetched.length == rows_max + 1
  let records := (fetched.map convert)
  (if truncated then records.dropLast else records, truncated)

/-- The wrapped SQL text executed by `search_sql`. -/
def search_sql_query (sql : String) (rows_max : Nat) : String :=
  "SELECT * FROM (" ++ sql ++ ") AS blah LIMIT "
    ++ String.mk (decDigits (rows_max + 1)) ++ " ;"

/-- C8: `records_truncated` is set exactly when the wrapped query
returns `rows_max + 1` rows (i.e. when the caller's SQL yields more than
`rows_max`), the surplus row is removed in that case, and the returned
records never exceed `rows_max`. -/
theorem c8_search_sql (rows_max : Nat) (convert : α → β) (rows : List α) :
    (search_sql rows_max convert rows).2 = decide (rows.length > rows_max)
    ∧ (search_sql rows_max convert rows).1.length ≤ rows_max
    ∧ ((search_sql rows_max convert rows).2 = false →
        (search_sql rows_max convert rows).1 = rows.map convert)
    ∧ ((search_sql rows_max convert rows).2 = true →
        (search_sql rows_max convert rows).1 = (rows.take rows_max).map convert) := by
  simp only [search_sql]
  have hlen : (rows.take (rows_max + 1)).length = min (rows_max + 1) rows.length :=
    List.length_take _ _
  by_cases hgt : rows.length > rows_max
  · have hfl : (rows.take (rows_max + 1)).length = rows_max + 1 := by omega
    have htr : ((rows.take (rows_max + 1)).length == rows_max + 1) = true := by
      simp [hfl]
    rw [htr, if_pos rfl]
    refine ⟨by simp [hgt], ?_, by intro h; simp at h, ?_⟩
    · rw [List.dropLast_eq_take]
      simp only [List.length_take, List.length_map, hfl]
      omega
    · intro _
      rw [List.dropLast_eq_take, List.length_map, hfl]
      have h1 : rows_max + 1 - 1 = rows_max := rfl
      rw [h1, ← List.map_take, List.take_take]
      have h2 : min rows_max (rows_max + 1) = rows_max := by omega
      rw [h2]
  · have hfl : (rows.take (rows_max + 1)).length = rows.length := by omega
    have htr : ((rows.take (rows_max + 1)).length == rows_max + 1) = false := by
      simp only [beq_eq_false_iff_ne, ne_eq]
      omega
    rw [htr, if_neg (by decide)]
    have hid : rows.take (rows_max + 1) = rows := List.take_of_length_le (by omega)
    rw [hid]
    refine ⟨?_, ?_, fun _ => rfl, by intro h; simp at h⟩
    · rw [eq_comm, decide_eq_false_iff_not]
      omega
    · rw [List.length_map]
      omega

/-! ## Write engine (`upsert_data` and the `upsert` transaction wrapper) -/

/-- A record: a JSON object mapping field names to values. -/
abbrev Record := List (String × PyVal)

/-- A declared column. -/
structure Field where
  id : String
  type : String
deriving DecidableEq, Repr

/-- A stored row: the serial `_id` plus the user columns.  The generated
`_full_text` column is trigger-maintained in the engine and not carried
here. -/
structure Row where
  id : Int
  vals : List (String × PyVal)
deriving DecidableEq, Repr

/-- The relevant database state for one resource: its user columns (as
returned by `_get_fields`, which excludes `_`-prefixed system columns),
the columns of its unique (non-primary) index as returned by
`_get_unique_key`, its rows, and the next serial `_id`. -/
structure Table where
  fields : List Field
  uniqueKeys : List String
  rows : List Row
  nextId : Int
deriving DecidableEq, Repr

/-- SQL statements executed by the write engine, as a trace.
`readFields` is the field-introspection SELECT of `_get_fields`;
`readUniqueKeys` the catalog query of `_get_unique_key`; the others are
the mutating statements. -/
inductive DbOp where
  | readFields
  | readUniqueKeys
  | insertStmt (rowCount : Nat)
  | updateStmt
  | upsertUpdateStmt
  | upsertInsertStmt
deriving DecidableEq, Repr

/-- Validation errors raised by `upsert_data` (each carries the data the
source interpolates into its error dict). -/
inductive UpsertErr where
  | extraKeys (rowNum : Nat) (keys : List String)
  | uniqueKeyRequired
  | missingKeyFields (fields : List String)
  | fieldsDoNotExist (fields : List String)
  | keyNotFound (keyValues : List PyVal)
deriving DecidableEq, Repr

/-- `record.get(k)` with Python semantics: a missing key reads as `None`. -/
def pyGet (r : Record) (k : String) : PyVal :=
  match r.find? (fun p => p.1 == k) with
  | some p => p.2
  | Option.none => PyVal.scalar .none

/-- `k in record`. -/
def recordHas (r : Record) (k : String) : Bool :=
  (r.find? (fun p => p.1 == k)).isSome

/-- `record[k] = v` for an existing key (the write engine only assigns
keys it has just read as non-`None`/`\x27\x27`, so they exist). -/
def recordSet (r : Record) (k : String) (v : PyVal) : Record :=
  r.map (fun p => if p.1 == k then (k, v) else p)

/-- Modelled: `json.dumps` of a nested value.  The dict payload is not
carried by `PyVal`, so the serialization is a stand-in; the write engine
only forwards it opaquely. -/
def jsonDumps : PyVal → String
  | .scalar s => pyStrScalar s
  | .dict => "(dict)"
  | .list _ => "(list)"
  | .marshalled s => s

/-- Python `str.lower()` for the ASCII type names it is applied to. -/
def pyCharLower (c : Char) : Char :=
  if 'A' ≤ c && c ≤ 'Z' then Char.ofNat (c.toNat + 32) else c

/-- Python `s.lower()`. -/
def pyLower (s : String) : String := String.mk (s.toList.map pyCharLower)

/-- The per-field value normalization of the insert path: non-`None`
values of `nested`-typed columns are marshalled to the composite, and
empty strings on non-`text` columns become `NULL`. -/
def normalizeVal (ftype : String) (v : PyVal) : PyVal :=
  if v != PyVal.scalar .none && pyLower ftype == "nested" then
    .marshalled (jsonDumps v)
  else if v == PyVal.scalar (.str "") && ftype != "text" then
    .scalar .none
  else v

/-- The in-place record normalization loop of the update/upsert path. -/
def normalizeRecord (fields : List Field) (r : Record) : Record :=
  fields.foldl (fun r f =>
    let value := pyGet r f.id
    if value != PyVal.scalar .none && pyLower f.type == "nested" then
      recordSet r f.id (.marshalled (jsonDumps value))
    else if value == PyVal.scalar (.str "") && f.type != "text" then
      recordSet r f.id (.scalar .none)
    else r) r

/-- SQL equality for a WHERE comparison: `NULL` never compares equal;
otherwise values are compared structurally (engine-side casts are not
modelled). -/
def sqlEq (a b : PyVal) : Bool :=
  if a == PyVal.scalar .none || b == PyVal.scalar .none then false else a == b

/-- Does a row satisfy `WHERE (cols) = (vals)`?  The `_id` column is the
row's serial id; other columns are looked up in the row. -/
def rowMatches (row : Row) (cols : List String) (vals : List PyVal) : Bool :=
  (cols.zip vals).all (fun p =>
    if p.1 == "_id" then p.2 == PyVal.scalar (.int row.id)
    else sqlEq (pyGet row.vals p.1) p.2)

/-- `UPDATE ... SET (used columns) = (values)` applied to one row. -/
def applyUpdate (r : Record) (row : Row) : Row :=
  { row with vals := row.vals.map (fun p =>
      match r.find? (fun q => q.1 == p.1) with
      | some q => (p.1, q.2)
      | Option.none => p) }

/-- The insert-path validation (`_validate_record`): a record with keys
outside the resource's field names rejects the call, naming the
1-based row number and the extra keys. -/
def insertValidate (field_names : List String) : List Record → Nat → Option UpsertErr
  | [], _ => Option.none
  | r :: rest, num =>
    let extra := (r.map (fun p => p.1)).filter (fun k => !field_names.contains k)
    if !extra.isEmpty then some (.extraKeys (num + 1) extra)
    else insertValidate field_names rest (num + 1)

/-- The batched INSERT: one row per record, each built column-by-column
with `normalizeVal`, ids drawn from the serial counter. -/
def insertAll (t : Table) (records : List Record) : Table :=
  { t with
    rows := t.rows ++ records.enum.map (fun p =>
      { id := t.nextId + p.1,
        vals := t.fields.map (fun f => (f.id, normalizeVal f.type (pyGet p.2 f.id))) }),
    nextId := t.nextId + records.length }

/-- The columns of the resolved key: the explicit `_id` when the record
carries one, else the unique-key columns. -/
def resolvedKeyCols (uniqueKeys : List String) (r : Record) : List String :=
  if recordHas r "_id" then ["_id"] else uniqueKeys

/-- The values of the resolved key, read from the normalized record. -/
def resolvedKeyVals (fields : List Field) (uniqueKeys : List String) (r : Record) :
    List PyVal :=
  (resolvedKeyCols uniqueKeys r).map (fun c => pyGet (normalizeRecord fields r) c)

/-- The UPDATE's row count: how many stored rows the keyed WHERE hits. -/
def matchingCount (t : Table) (cols : List String) (vals : List PyVal) : Nat :=
  (t.rows.filter (fun row => rowMatches row cols vals)).length

/-- The table after the keyed UPDATE (every matching row receives the
record's used columns; `_full_text` is nulled engine-side for the
trigger and is not carried here). -/
def applyKeyedUpdate (fields : List Field) (uniqueKeys : List String)
    (t : Table) (r : Record) : Table :=
  let rn := normalizeRecord fields r
  let cols := resolvedKeyCols uniqueKeys r
  let vals := resolvedKeyVals fields uniqueKeys r
  { t with rows := t.rows.map (fun row =>
      if rowMatches row cols vals then applyUpdate rn row else row) }

/-- One record of the update/upsert loop: the unique-key/`_id` presence
checks, record normalization, the unknown-field check, then the keyed
UPDATE (update: row count must be exactly 1) or the
UPDATE-then-INSERT-WHERE-NOT-EXISTS pair (upsert). -/
def oneWriteRecord (method : String) (fields : List Field)
    (field_names uniqueKeys : List String) (t : Table) (r : Record) :
    List DbOp × Except UpsertErr Table :=
  if uniqueKeys.isEmpty && !recordHas r "_id" then
    ([], .error .uniqueKeyRequired)
  else
    let missing := uniqueKeys.filter (fun f => !recordHas r f)
    if !recordHas r "_id" && !missing.isEmpty then
      ([], .error (.missingKeyFields missing))
    else
      let rn := normalizeRecord fields r
      let nonExisting := (rn.map (fun p => p.1)).filter
        (fun k => !field_names.contains k && k != "_id")
      if !nonExisting.isEmpty then
        ([], .error (.fieldsDoNotExist nonExisting))
      else
        let cols := resolvedKeyCols uniqueKeys r
        let vals := resolvedKeyVals fields uniqueKeys r
        let matchCount := matchingCount t cols vals
        let updated := applyKeyedUpdate fields uniqueKeys t r
        if method == "update" then
          if matchCount != 1 then ([DbOp.updateStmt], .error (.keyNotFound vals))
          else ([DbOp.updateStmt], .ok updated)
        else
          if matchCount == 0 then
            let newRow : Row :=
              { id := t.nextId,
                vals := fields.filterMap (fun f =>
                  (rn.find? (fun q => q.1 == f.id)).map (fun q => (f.id, q.2))) }
            let t3 : Table :=
              { updated with rows := updated.rows ++ [newRow], nextId := t.nextId + 1 }
            ([DbOp.upsertUpdateStmt, DbOp.upsertInsertStmt], .ok t3)
          else
            ([DbOp.upsertUpdateStmt, DbOp.upsertInsertStmt], .ok updated)

/-- The update/upsert loop over the records, stopping at the first
error (the raised exception aborts the call). -/
def runRecords (method : String) (fields : List Field)
    (field_names uniqueKeys : List String) :
    Table → List Record → List DbOp × Except UpsertErr Table
  | t, [] => ([], .ok t)
  | t, r :: rest =>
    match oneWriteRecord method fields field_names uniqueKeys t r with
    | (ops, .error e) => (ops, .error e)
    | (ops, .ok t2) =>
      let res := runRecords method fields field_names uniqueKeys t2 rest
      (ops ++ res.1, res.2)

/-- `upsert_data(context, data_dict)`: returns the trace of executed SQL
statements and the resulting state or validation error.  Missing or
empty `records` return before touching the database; a resource with no
user columns returns right after the field-introspection SELECT. -/
def upsert_data (t : Table) (method : String) (records : Option (List Record)) :
    List DbOp × Except UpsertErr Table :=
  match records with
  | Option.none => ([], .ok t)
  | some [] => ([], .ok t)
  | some (r0 :: rs) =>
    let fields := t.fields
    let field_names := fields.map (fun f => f.id)
    if field_names.isEmpty then ([DbOp.readFields], .ok t)
    else if method == "insert" then
      match insertValidate field_names (r0 :: rs) 0 with
      | some e => ([DbOp.readFields], .error e)
      | Option.none =>
        ([DbOp.readFields, DbOp.insertStmt (r0 :: rs).length], .ok (insertAll t (r0 :: rs)))
    else if method == "update" || method == "upsert" then
      let res := runRecords method fields field_names t.uniqueKeys t (r0 :: rs)
      (DbOp.readFields :: DbOp.readUniqueKeys :: res.1, res.2)
    else ([DbOp.readFields], .ok t)

/-- The `upsert` session wrapper: commits on success; on any raised
error the transaction is rolled back, so the table reverts to its state
before the call, and the error is re-raised to the caller. -/
def upsertWrapper (t : Table) (method : String) (records : Option (List Record)) :
    List DbOp × Option UpsertErr × Table :=
  match upsert_data t method records with
  | (ops, .ok t2) => (ops, Option.none, t2)
  | (ops, .error e) => (ops, some e, t)

/-! ## C10, C5, C4: write-engine theorems -/

/-- C10 (counterexample to the claim as stated): on a resource with no
user columns and a nonempty records list, `upsert_data` does execute an
SQL statement — the field-introspection SELECT of `_get_fields` runs
before the early return. -/
theorem c10_counterexample :
    (upsert_data { fields := [], uniqueKeys := [], rows := [], nextId := 1 } "insert"
      (some [[("a", PyVal.scalar (.int 1))]])).1 ≠ [] := by
  decide

/-- C10 (amended): a missing or empty records list returns before any
SQL is executed; a call on a resource with no user columns returns right
after the read-only field-introspection SELECT — in all three cases with
the database state unchanged, no mutating statement, and no error. -/
theorem c10_empty_calls (t : Table) (method : String) (r : Record) (rs : List Record)
    (hf : t.fields = []) :
    upsert_data t method Option.none = ([], .ok t)
    ∧ upsert_data t method (some []) = ([], .ok t)
    ∧ upsert_data t method (some (r :: rs)) = ([DbOp.readFields], .ok t) := by
  refine ⟨rfl, rfl, ?_⟩
  simp [upsert_data, hf]

/-- Witness for `c10_empty_calls` at a concrete input. -/
theorem c10_empty_calls_witness :
    upsert_data { fields := [], uniqueKeys := [], rows := [], nextId := 1 } "upsert"
        (some [[("a", PyVal.scalar (.int 1))]])
      = ([DbOp.readFields],
          .ok { fields := [], uniqueKeys := [], rows := [], nextId := 1 }) :=
  (c10_empty_calls { fields := [], uniqueKeys := [], rows := [], nextId := 1 }
    "upsert" [("a", PyVal.scalar (.int 1))] [] rfl).2.2

/-- C5: in an update or upsert call, a record must carry `_id` or the
full unique key: with no unique key and no `_id` the call is rejected
with the `unique key must be passed` error; with `_id` absent and some
unique-key column missing from the record, it is rejected with an error
naming exactly the missing fields.  Either way the transaction is rolled
back and the table is unchanged. -/
theorem c5_key_requirements (t : Table) (method : String) (r : Record)
    (rs : List Record) (hm : method = "update" ∨ method = "upsert")
    (hf : t.fields ≠ []) :
    (t.uniqueKeys = [] → recordHas r "_id" = false →
      upsertWrapper t method (some (r :: rs))
        = ([DbOp.readFields, DbOp.readUniqueKeys], some .uniqueKeyRequired, t))
    ∧ (recordHas r "_id" = false →
        t.uniqueKeys.filter (fun f => !recordHas r f) ≠ [] →
        upsertWrapper t method (some (r :: rs))
          = ([DbOp.readFields, DbOp.readUniqueKeys],
              some (.missingKeyFields (t.uniqueKeys.filter (fun f => !recordHas r f))),
              t)) := by
  have hfe : (t.fields.map (fun f => f.id)).isEmpty = false := by
    cases ht : t.fields with
    | nil => exact absurd ht hf
    | cons a l => rfl
  constructor
  · intro h1 h2
    have hone : oneWriteRecord method t.fields (t.fields.map (fun f => f.id))
        t.uniqueKeys t r = ([], .error .uniqueKeyRequired) := by
      rw [oneWriteRecord, if_pos (by simp [h1, h2])]
    have hrr : runRecords method t.fields (t.fields.map (fun f => f.id))
        t.uniqueKeys t (r :: rs) = ([], .error .uniqueKeyRequired) := by
      simp only [runRecords, hone]
    rcases hm with hm | hm <;> subst hm <;>
      simp [upsertWrapper, upsert_data, hfe, hrr]
  · intro h2 h3
    have hone : oneWriteRecord method t.fields (t.fields.map (fun f => f.id))
        t.uniqueKeys t r
        = ([], .error (.missingKeyFields
            (t.uniqueKeys.filter (fun f => !recordHas r f)))) := by
      have hku : t.uniqueKeys.isEmpty = false := by
        cases hu : t.uniqueKeys with
        | nil => exact absurd (by simp [hu]) h3
        | cons a l => rfl
      have hmne : (t.uniqueKeys.filter (fun f => !recordHas r f)).isEmpty = false := by
        cases hfu : t.uniqueKeys.filter (fun f => !recordHas r f) with
        | nil => exact absurd hfu h3
        | cons a l => rfl
      rw [oneWriteRecord, if_neg (by simp [hku]), if_pos (by simp [h2, hmne])]
    have hrr : runRecords method t.fields (t.fields.map (fun f => f.id))
        t.uniqueKeys t (r :: rs)
        = ([], .error (.missingKeyFields
            (t.uniqueKeys.filter (fun f => !recordHas r f)))) := by
      simp only [runRecords, hone]
    rcases hm with hm | hm <;> subst hm <;>
      simp [upsertWrapper, upsert_data, hfe, hrr]

/-- Witness for `c5_key_requirements` at a concrete input. -/
theorem c5_key_requirements_witness :
    upsertWrapper { fields := [⟨"a", "text"⟩], uniqueKeys := [], rows := [], nextId := 1 }
        "update" (some [[("a", PyVal.scalar (.str "x"))]])
      = ([DbOp.readFields, DbOp.readUniqueKeys], some .uniqueKeyRequired,
          { fields := [⟨"a", "text"⟩], uniqueKeys := [], rows := [], nextId := 1 }) :=
  (c5_key_requirements
    { fields := [⟨"a", "text"⟩], uniqueKeys := [], rows := [], nextId := 1 }
    "update" [("a", PyVal.scalar (.str "x"))] [] (Or.inl rfl) (by decide)).1 rfl (by decide)

/-- C4: in an update call on a record whose resolved key (explicit `_id`
or the unique-key column values) matches zero rows, the call raises a
validation error naming that key and the transaction rollback leaves the
table unchanged; a row count of exactly one is the success condition;
and any row count other than one — including more than one — takes the
same single `rowcount != 1` check to the same key-not-found error, with
no separate verification for the greater-than-one case. -/
theorem c4_update_miss (t : Table) (r : Record) (rs : List Record)
    (hf : t.fields ≠ [])
    (h1 : (t.uniqueKeys.isEmpty && !recordHas r "_id") = false)
    (h2 : (!recordHas r "_id"
        && !(t.uniqueKeys.filter (fun f => !recordHas r f)).isEmpty) = false)
    (h3 : ((((normalizeRecord t.fields r).map (fun p => p.1)).filter
        (fun k => !((t.fields.map (fun f => f.id)).contains k) && k != "_id")).isEmpty)
        = true) :
    (matchingCount t (resolvedKeyCols t.uniqueKeys r)
        (resolvedKeyVals t.fields t.uniqueKeys r) = 0 →
      upsertWrapper t "update" (some (r :: rs))
        = ([DbOp.readFields, DbOp.readUniqueKeys, DbOp.updateStmt],
            some (.keyNotFound (resolvedKeyVals t.fields t.uniqueKeys r)), t))
    ∧ (matchingCount t (resolvedKeyCols t.uniqueKeys r)
        (resolvedKeyVals t.fields t.uniqueKeys r) ≠ 1 →
      upsertWrapper t "update" (some (r :: rs))
        = ([DbOp.readFields, DbOp.readUniqueKeys, DbOp.updateStmt],
            some (.keyNotFound (resolvedKeyVals t.fields t.uniqueKeys r)), t))
    ∧ (matchingCount t (resolvedKeyCols t.uniqueKeys r)
        (resolvedKeyVals t.fields t.uniqueKeys r) = 1 →
      upsertWrapper t "update" (some [r])
        = ([DbOp.readFields, DbOp.readUniqueKeys, DbOp.updateStmt], Option.none,
            applyKeyedUpdate t.fields t.uniqueKeys t r)) := by
  have hfe : (t.fields.map (fun f => f.id)).isEmpty = false := by
    cases ht : t.fields with
    | nil => exact absurd ht hf
    | cons a l => rfl
  have hone : oneWriteRecord "update" t.fields (t.fields.map (fun f => f.id))
      t.uniqueKeys t r
      = (if matchingCount t (resolvedKeyCols t.uniqueKeys r)
            (resolvedKeyVals t.fields t.uniqueKeys r) != 1 then
          ([DbOp.updateStmt],
            Except.error (UpsertErr.keyNotFound
              (resolvedKeyVals t.fields t.uniqueKeys r)))
        else
          ([DbOp.updateStmt],
            Except.ok (applyKeyedUpdate t.fields t.uniqueKeys t r))) := by
    rw [oneWriteRecord, if_neg (by simp [h1]), if_neg (by simp [h2]),
      if_neg (by rw [h3]; decide), if_pos (by rfl)]
  have main : matchingCount t (resolvedKeyCols t.uniqueKeys r)
      (resolvedKeyVals t.fields t.uniqueKeys r) ≠ 1 →
      upsertWrapper t "update" (some (r :: rs))
        = ([DbOp.readFields, DbOp.readUniqueKeys, DbOp.updateStmt],
            some (.keyNotFound (resolvedKeyVals t.fields t.uniqueKeys r)), t) := by
    intro hne
    rw [if_pos (by simpa [bne_iff_ne] using hne)] at hone
    have hrr : runRecords "update" t.fields (t.fields.map (fun f => f.id))
        t.uniqueKeys t (r :: rs)
        = ([DbOp.updateStmt],
            .error (.keyNotFound (resolvedKeyVals t.fields t.uniqueKeys r))) := by
      simp only [runRecords, hone]
    simp [upsertWrapper, upsert_data, hfe, hrr]
  refine ⟨fun h0 => main (by omega), main, ?_⟩
  intro heq
  rw [if_neg (by simp [bne_iff_ne, heq])] at hone
  have hrr : runRecords "update" t.fields (t.fields.map (fun f => f.id))
      t.uniqueKeys t [r]
      = ([DbOp.updateStmt], .ok (applyKeyedUpdate t.fields t.uniqueKeys t r)) := by
    simp only [runRecords, hone, List.append_nil]
  simp [upsertWrapper, upsert_data, hfe, hrr]

/-- Witness for `c4_update_miss` at a concrete input: a one-row table
with unique key `a`, updated with an unmatched key value `"y"`. -/
theorem c4_update_miss_witness :
    upsertWrapper
        { fields := [⟨"a", "text"⟩, ⟨"b", "int4"⟩], uniqueKeys := ["a"],
          rows := [⟨1, [("a", PyVal.scalar (.str "x")), ("b", PyVal.scalar (.int 1))]⟩],
          nextId := 2 }
        "update" (some [[("a", PyVal.scalar (.str "y")), ("b", PyVal.scalar (.int 2))]])
      = ([DbOp.readFields, DbOp.readUniqueKeys, DbOp.updateStmt],
          some (.keyNotFound [PyVal.scalar (.str "y")]),
          { fields := [⟨"a", "text"⟩, ⟨"b", "int4"⟩], uniqueKeys := ["a"],
            rows := [⟨1, [("a", PyVal.scalar (.str "x")), ("b", PyVal.scalar (.int 1))]⟩],
            nextId := 2 }) :=
  (c4_update_miss
    { fields := [⟨"a", "text"⟩, ⟨"b", "int4"⟩], uniqueKeys := ["a"],
      rows := [⟨1, [("a", PyVal.scalar (.str "x")), ("b", PyVal.scalar (.int 1))]⟩],
      nextId := 2 }
    [("a", PyVal.scalar (.str "y")), ("b", PyVal.scalar (.int 2))] []
    (by decide) (by decide) (by decide) (by decide)).1 (by decide)

/-! ## Index management (`create_indexes`, `_generate_index_name`) -/

/-- Hex digit character (`0-9a-f`). -/
def hexDigitChar (n : Nat) : Char :=
  if n < 10 then Char.ofNat (48 + n) else Char.ofNat (87 + n)

/-- Six-hex-digit encoding of one character's code point. -/
def hexOfChar (c : Char) : List Char :=
  [hexDigitChar (c.toNat / 1048576 % 16), hexDigitChar (c.toNat / 65536 % 16),
   hexDigitChar (c.toNat / 4096 % 16), hexDigitChar (c.toNat / 256 % 16),
   hexDigitChar (c.toNat / 16 % 16), hexDigitChar (c.toNat % 16)]

/-- Modelled from the spec: `hashlib.sha1(value).hexdigest()` — an external
library digest of `resource_id + field`.  Modelled as an injective hex
encoding of the input: the code relies only on the name being a
deterministic (and collision-free) function of that concatenation. -/
def sha1HexModel (s : String) : String := String.mk (s.toList.flatMap hexOfChar)

/-- `_generate_index_name(resource_id, field)`. -/
def _generate_index_name (resource_id field : String) : String :=
  sha1HexModel (resource_id ++ field)

/-- One index in the engine catalog (the table's primary-key index on
`_id` is kept separately: `_drop_indexes` filters it out and
`_get_unique_key` ignores it). `cols` are the plain indexed columns as
`pg_attribute` reports them; expression members contribute none. -/
structure IdxEntry where
  name : String
  unique : Bool
  cols : List String
deriving DecidableEq, Repr

/-- The index catalog state for one resource. -/
structure IdxState where
  resourceId : String
  entries : List IdxEntry
deriving DecidableEq, Repr

/-- `_get_index_names`: every index on the table, the primary-key index
(named `{resource}_pkey` by the engine) included. -/
def _get_index_names (st : IdxState) : List String :=
  (st.resourceId ++ "_pkey") :: st.entries.map (fun e => e.name)

/-- `_get_unique_key`: the columns of the unique non-primary indexes. -/
def _get_unique_key (st : IdxState) : List String :=
  (st.entries.filter (fun e => e.unique)).flatMap (fun e => e.cols)

/-- A statement issued by `create_indexes`. -/
inductive IdxStmt where
  | createIndex (unique : Bool) (usingMethod : Option String)
      (name resId fieldsStr : String) (cols : List String)
  | dropIndex (name : String)
deriving DecidableEq, Repr

/-- The SQL text of a statement (the `sql_index_tmpl` format strings). -/
def renderStmt : IdxStmt → String
  | .createIndex u m name rid fs _ =>
    "CREATE " ++ (if u then "unique" else "") ++ " INDEX \"" ++ name
      ++ "\" ON \"" ++ rid ++ "\""
      ++ (match m with
          | some meth => " USING " ++ meth ++ "(" ++ fs ++ ")"
          | Option.none => " (" ++ fs ++ ")")
  | .dropIndex name => "DROP INDEX " ++ name ++ " CASCADE"

/-- Executing one statement against the catalog. -/
def execStmt (st : IdxState) : IdxStmt → IdxState
  | .createIndex u _ nm _ _ cols =>
    { st with entries := st.entries ++ [{ name := nm, unique := u, cols := cols }] }
  | .dropIndex nm =>
    { st with entries := st.entries.filter (fun e => !(e.name == nm)) }

/-- Does `needle` lead `hay`? -/
def leadMatch : List Char → List Char → Bool
  | _, [] => true
  | [], _ :: _ => false
  | h :: t, nh :: nt => h == nh && leadMatch t nt

/-- Substring test at the character-list level (Python's `in`). -/
def containsSubL (needle : List Char) : List Char → Bool
  | [] => needle.isEmpty
  | h :: t => leadMatch (h :: t) needle || containsSubL needle t

/-- Python `needle in hay` on strings. -/
def containsSub (hay needle : String) : Bool := containsSubL needle.toList hay.toList

/-- `to_tsvector(\x27lang\x27, x)`. -/
def toTsvectorSql (lang x : String) : String :=
  "to_tsvector(\x27" ++ lang ++ "\x27, " ++ x ++ ")"

/-- `cast("x" AS text)`. -/
def castAsTextSql (x : String) : String := "cast(\"" ++ x ++ "\" AS text)"

/-- The full-text field expression for one field (quoted for
`text`/`tsvector` types, cast for the rest; wrapped in `to_tsvector`
except for the generated `tsvector` column). -/
def ftsFieldStr (lang : String) (f : Field) : String :=
  let s := if !(f.type == "text" || f.type == "tsvector") then castAsTextSql f.id
    else "\"" ++ f.id ++ "\""
  if f.type != "tsvector" then toTsvectorSql lang s else s

/-- `_build_fts_indexes` over `[_full_text] + fields`: a CREATE for every
indexable field and the content-addressed names of the non-indexable
ones (to be dropped if present). -/
def buildFts (rid lang method : String) : List Field → List IdxStmt × List String
  | [] => ([], [])
  | f :: rest =>
    let fs := ftsFieldStr lang f
    let nm := _generate_index_name rid fs
    let r := buildFts rid lang method rest
    if f.id != "_full_text" && !should_fts_index_field_type f.type then
      (r.1, nm :: r.2)
    else
      (IdxStmt.createIndex false (some method) nm rid fs [] :: r.1, r.2)

/-- `_drop_indexes(unique)`: drop every non-primary index whose
uniqueness matches, returning the statements and the new catalog. -/
def _drop_indexes (unique : Bool) (st : IdxState) : List IdxStmt × IdxState :=
  ((st.entries.filter (fun e => e.unique == unique)).map (fun e => IdxStmt.dropIndex e.name),
    { st with entries := st.entries.filter (fun e => !(e.unique == unique)) })

/-- The validation error of the declared-index loop. -/
inductive IdxErr where
  | invalidColumn (index : List String)
deriving DecidableEq, Repr

/-- Insertion sort on strings (`sorted(...)`). -/
def insertSorted (x : String) : List String → List String
  | [] => [x]
  | h :: t => if x ≤ h then x :: h :: t else h :: insertSorted x t

/-- `sorted(l)`. -/
def sortStrs (l : List String) : List String := l.foldr insertSorted []

/-- The declared-index loop: empty entries are skipped, each member
field must be a column of the resource, `nested` fields are indexed on
their JSON text projection, and the index equal to the declared primary
key is created UNIQUE. -/
def buildDeclared (rid : String) (json_fields field_ids : List String)
    (primary_key : Option (List String)) :
    List (List String) → Except IdxErr (List IdxStmt)
  | [] => .ok []
  | index :: rest =>
    if index.isEmpty then buildDeclared rid json_fields field_ids primary_key rest
    else if index.any (fun f => !field_ids.contains f) then
      .error (.invalidColumn index)
    else
      let fields_string := String.intercalate ", " (index.map (fun f =>
        if json_fields.contains f then "((" ++ identifierS f ++ ").json::text)"
        else identifierS f))
      let nm := _generate_index_name rid fields_string
      let unique := match primary_key with
        | some pk => index == pk
        | Option.none => false
      match buildDeclared rid json_fields field_ids primary_key rest with
      | .error e => .error e
      | .ok cs =>
        .ok (IdxStmt.createIndex unique Option.none nm rid fields_string
          (index.filter (fun f => !json_fields.contains f)) :: cs)

/-- `create_indexes(context, data_dict)` over the catalog state:
`indexes`/`primary_key` are the (already list-parsed) declarations,
`fields` the live columns, `ftsLang`/`ftsMethod` the configured
full-text language and index method.  Returns the executed statements
in order and the resulting catalog. -/
def create_indexes (ftsLang ftsMethod : String) (indexes : Option (List (List String)))
    (primary_key : Option (List String)) (fields : List Field) (st : IdxState) :
    Except IdxErr (List IdxStmt × IdxState) :=
  let rid := st.resourceId
  let field_ids := fields.map (fun f => f.id)
  let json_fields := (fields.filter (fun f => f.type == "nested")).map (fun f => f.id)
  let fts := buildFts rid ftsLang ftsMethod ({ id := "_full_text", type := "tsvector" } :: fields)
  let dropRes := match indexes with
    | some _ => _drop_indexes false st
    | Option.none => ([], st)
  let st1 := dropRes.2
  let indexes0 : List (List String) := match indexes with
    | some l => l
    | Option.none => []
  let pkRes : (List IdxStmt × IdxState) × List (List String) :=
    match primary_key with
    | some pk =>
      if sortStrs (_get_unique_key st1) != sortStrs pk then
        (_drop_indexes true st1, indexes0 ++ [pk])
      else (([], st1), indexes0)
    | Option.none => (([], st1), indexes0)
  let st2 := pkRes.1.2
  match buildDeclared rid json_fields field_ids primary_key pkRes.2 with
  | .error e => .error e
  | .ok declaredCreates =>
    let sql_index_strings := fts.1 ++ declaredCreates
    let current := _get_index_names st2
    let dropFts := current.filter (fun c => fts.2.contains c)
    let st3 := dropFts.foldl (fun s nm => execStmt s (.dropIndex nm)) st2
    let createRes := sql_index_strings.foldl
      (fun (acc : List IdxStmt × IdxState) stmt =>
        if current.any (fun c => containsSub (renderStmt stmt) c) then acc
        else (acc.1 ++ [stmt], execStmt acc.2 stmt)) ([], st3)
    .ok (dropRes.1 ++ pkRes.1.1 ++ dropFts.map IdxStmt.dropIndex ++ createRes.1, createRes.2)

/-! ## C6: index-name determinism and (conditional) idempotence -/

theorem createLoop_skip (current : List String) :
    ∀ (stmts : List IdxStmt) (acc : List IdxStmt × IdxState),
      (∀ s ∈ stmts, current.any (fun c => containsSub (renderStmt s) c) = true) →
      stmts.foldl (fun acc stmt =>
        if current.any (fun c => containsSub (renderStmt stmt) c) then acc
        else (acc.1 ++ [stmt], execStmt acc.2 stmt)) acc = acc := by
  intro stmts
  induction stmts with
  | nil => intro acc _; rfl
  | cons s rest ih =>
    intro acc h
    rw [List.foldl_cons, if_pos (h s (List.mem_cons_self s rest))]
    exact ih acc (fun x hx => h x (List.mem_cons_of_mem s hx))

/-- C6 (amended): index names are a deterministic content-addressed
function of `resource_id + field expression`; and a `create_indexes`
call that declares no `indexes` list issues zero statements when the
content-addressed names are already present (every full-text CREATE is
suppressed by the substring check against the existing index names, no
existing index name is slated as a stale full-text index, and the
declared primary key matches the live unique key) — which is exactly the
situation after a first run, so the second of two identical calls
without an `indexes` list is a no-op.  (With an `indexes` list the code
first drops all regular indexes and re-creates them on every call; see
the counterexample.) -/
theorem c6_create_indexes_idempotent (ftsLang ftsMethod : String)
    (pk : Option (List String)) (fields : List Field) (st : IdxState)
    (h1 : ∀ s ∈ (buildFts st.resourceId ftsLang ftsMethod
        ({ id := "_full_text", type := "tsvector" } :: fields)).1,
      (_get_index_names st).any (fun c => containsSub (renderStmt s) c) = true)
    (h2 : ∀ nm ∈ _get_index_names st,
      ((buildFts st.resourceId ftsLang ftsMethod
        ({ id := "_full_text", type := "tsvector" } :: fields)).2.contains nm) = false)
    (h3 : match pk with
      | some l => sortStrs (_get_unique_key st) = sortStrs l
      | Option.none => True) :
    (∀ r1 f1 r2 f2, r1 ++ f1 = r2 ++ f2 →
      _generate_index_name r1 f1 = _generate_index_name r2 f2)
    ∧ create_indexes ftsLang ftsMethod Option.none pk fields st = .ok ([], st) := by
  constructor
  · intro r1 f1 r2 f2 h
    unfold _generate_index_name
    rw [h]
  · have hfilnil : ∀ (l m : List String), (∀ nm ∈ l, m.contains nm = false) →
        l.filter (fun c => m.contains c) = [] := by
      intro l m h
      induction l with
      | nil => rfl
      | cons a t ih =>
        rw [List.filter_cons, h a (List.mem_cons_self a t),
          if_neg Bool.false_ne_true]
        exact ih (fun x hx => h x (List.mem_cons_of_mem a hx))
    have hdropFts : (_get_index_names st).filter
        (fun c => (buildFts st.resourceId ftsLang ftsMethod
          ({ id := "_full_text", type := "tsvector" } :: fields)).2.contains c) = [] :=
      hfilnil _ _ h2
    cases pk with
    | none =>
      simp only [create_indexes, buildDeclared]
      rw [hdropFts]
      simp only [List.foldl_nil, List.map_nil, List.append_nil, List.nil_append]
      rw [createLoop_skip (_get_index_names st) _ _ h1]
    | some l =>
      have hsort : (sortStrs (_get_unique_key st) != sortStrs l) = false := by
        simp only [h3, bne_self_eq_false]
      simp only [create_indexes, hsort, Bool.false_eq_true, if_false, buildDeclared]
      rw [hdropFts]
      simp only [List.foldl_nil, List.map_nil, List.append_nil, List.nil_append]
      rw [createLoop_skip (_get_index_names st) _ _ h1]

/-- The concrete three-column resource used to exercise `create_indexes`. -/
def c6Fields : List Field := [⟨"a", "text"⟩, ⟨"n", "int4"⟩, ⟨"j", "nested"⟩]

/-- A fresh resource: no secondary indexes yet. -/
def c6St0 : IdxState := ⟨"r1", []⟩

/-- First run with a declared primary key and no `indexes` list. -/
def c6Run1 : Except IdxErr (List IdxStmt × IdxState) :=
  create_indexes "english" "gist" Option.none (some ["a"]) c6Fields c6St0

/-- The catalog after the first run. -/
def c6St1 : IdxState :=
  match c6Run1 with
  | .ok r => r.2
  | .error _ => c6St0

set_option maxRecDepth 100000 in
/-- Witness for `c6_create_indexes_idempotent`: after the concrete first
run, the identical second call issues zero statements. -/
theorem c6_create_indexes_idempotent_witness :
    create_indexes "english" "gist" Option.none (some ["a"]) c6Fields c6St1
      = .ok ([], c6St1) :=
  (c6_create_indexes_idempotent "english" "gist" (some ["a"]) c6Fields c6St1
    (by decide) (by decide) (by decide)).2

/-- First run with a declared `indexes` list. -/
def c6Run1b : Except IdxErr (List IdxStmt × IdxState) :=
  create_indexes "english" "gist" (some [["a"]]) Option.none c6Fields c6St0

/-- The catalog after that run. -/
def c6St1b : IdxState :=
  match c6Run1b with
  | .ok r => r.2
  | .error _ => c6St0

set_option maxRecDepth 100000 in
/-- C6 (counterexample to the claim as stated): with an unchanged
declared `indexes` list, the second of two identical `create_indexes`
calls is not a no-op — it drops all regular indexes (including the
full-text ones) and re-creates them. -/
theorem c6_counterexample :
    (match create_indexes "english" "gist" (some [["a"]]) Option.none c6Fields c6St1b with
      | .ok r => r.1
      | .error _ => []) ≠ [] := by
  decide

end Datastore
